import Mathlib

/-!
Verification development for the notarize-and-verify PR action.

The Go program (main.go) gates a pull-request merge on ledger proof that
every required approver notarized the PR commit.  This file embeds the
program's core shallowly:

* trust statuses and the ledger record returned by the transport layer;
* the `verify` wrapper around the ledger lookup (main.go:394-423);
* the per-approver verification loop and the final exit decision of
  `main` (main.go:130-188);
* the conditional notarization step (main.go:115-128);
* credential reconciliation: `getAPIKey`, `getAndRotateOrCreateAPIKeys`
  (main.go:206-264), with explicit traces of every directory call;
* the supplied-credentials parser of the variant `main`
  (the nine-argument CLI, lines 117-137 of that variant), modelled over
  `List Char` so that the Go `strings.Split` / `strings.Join` /
  `strings.TrimSuffix` calls are kernel-computable.

External effects are passed in as explicit oracles: the ledger is a
function from API key to a `LoadResult`, the credential directory is a
record of three functions, and success of the single notarization call is
a function of the credential used.
-/

namespace PRAction

/-- TrustStatus of the vcn meta package, as read by this program. -/
inductive Status where
  | trusted
  | untrusted
  | unknown
  | unsupported
  | apikeyRevoked
deriving DecidableEq, Repr

/-- The ledger record returned by `LoadArtifact` (only the fields the
action reads): status, artifact name, signer, and the revocation
timestamp `Revoked` (`none` = nil pointer, `some 0` = the zero time,
`some t` with `t ≠ 0` = a set, non-zero timestamp). -/
structure LcArtifact where
  status : Status
  name : String
  signer : String
  revoked : Option Nat
deriving DecidableEq, Repr

/-- Outcome of `LoadArtifact` at the transport boundary: the distinguished
not-found error, any other transport error, or a record together with the
verified flag. -/
inductive LoadResult where
  | notFound
  | transportErr (msg : String)
  | found (a : LcArtifact) (verified : Bool)
deriving DecidableEq, Repr

/-- The Go condition `cnilArtifact.Revoked != nil && !cnilArtifact.Revoked.IsZero()`
(main.go:418). -/
def revokedSet (a : LcArtifact) : Bool :=
  match a.revoked with
  | none => false
  | some t => decide (t ≠ 0)

/-- `verify` (main.go:394-423): the distinguished not-found error becomes
the non-error absent result `ok none`; any other load error, and a record
carrying verified flag `false`, become errors; a set, non-zero revocation
timestamp forces the `ApikeyRevoked` status before the record is returned. -/
def verify (r : LoadResult) : Except String (Option LcArtifact) :=
  match r with
  | LoadResult.notFound => Except.ok none
  | LoadResult.transportErr m => Except.error ("ledger might be compromised: " ++ m)
  | LoadResult.found a verified =>
    if !verified then
      Except.error "ledger might be compromised: CNIL verification status is false"
    else if revokedSet a then
      Except.ok (some { a with status := Status.apikeyRevoked })
    else
      Except.ok (some a)

/-- Result of the verification loop of `main` (main.go:135-171): either an
abort (`os.Exit(1)` on a verify error) after visiting the listed
approvers, or completion with the collected `notarizedApprovers` and the
full visit order. -/
inductive LoopResult where
  | aborted (visited : List String)
  | completed (notarized : List String) (visited : List String)
deriving DecidableEq, Repr

/-- Loop behaviour on an approver that contributes nothing to
`notarizedApprovers`: the approver is visited and the loop continues with
the outcome of the remaining iterations. -/
def skipEntry (id : String) : LoopResult → LoopResult
  | LoopResult.aborted vs => LoopResult.aborted (id :: vs)
  | LoopResult.completed ns vs => LoopResult.completed ns (id :: vs)

/-- The approvers actually visited (i.e. for which `verify` was invoked). -/
def loopVisited : LoopResult → List String
  | LoopResult.aborted vs => vs
  | LoopResult.completed _ vs => vs

/-- One iteration of the verification loop for the map entry
`p = (approver, apiKey)`, given the outcome `r` of the remaining
iterations: a verify error aborts at once (the rest is never visited), an
absent record is skipped, and a present record adds the approver to
`notarizedApprovers` exactly when its status is Trusted (main.go:141-157). -/
def stepEntry (ledger : String → LoadResult) (p : String × String)
    (r : LoopResult) : LoopResult :=
  match verify (ledger p.2) with
  | Except.error _ => LoopResult.aborted [p.1]
  | Except.ok none => skipEntry p.1 r
  | Except.ok (some a) =>
    match r with
    | LoopResult.aborted vs => LoopResult.aborted (p.1 :: vs)
    | LoopResult.completed ns vs =>
      LoopResult.completed (if a.status = Status.trusted then p.1 :: ns else ns)
        (p.1 :: vs)

/-- The verification loop over the credential-map entries in iteration
order (main.go:135-171). -/
def verifyLoop (ledger : String → LoadResult) :
    List (String × String) → LoopResult
  | [] => LoopResult.completed [] []
  | p :: rest => stepEntry ledger p (verifyLoop ledger rest)

/-- Final decision (main.go:175-188): the process exits zero iff the loop
completed and `len(notarizedApprovers) == len(apiKeyPerRequiredApprover)`. -/
def runExitsZero (m : List (String × String)) (ledger : String → LoadResult) : Bool :=
  match verifyLoop ledger m with
  | LoopResult.aborted _ => false
  | LoopResult.completed ns _ => decide (ns.length = m.length)

/-- Whether a map entry counts as notarized: its verification returns a
record whose status is Trusted. -/
def entryTrusted (ledger : String → LoadResult) (p : String × String) : Bool :=
  match verify (ledger p.2) with
  | Except.ok (some a) => decide (a.status = Status.trusted)
  | _ => false

/-- Whether verification of a map entry returns an error (fatal abort). -/
def fatalEntry (ledger : String → LoadResult) (p : String × String) : Bool :=
  match verify (ledger p.2) with
  | Except.error _ => true
  | _ => false

/-- The Go map read `m[k]` over the association-list model of the map. -/
def lookupMap (m : List (String × String)) (k : String) : Option String :=
  match m.find? (fun p => p.1 == k) with
  | some p => some p.2
  | none => none

/-- main.go:115-188 after reconciliation: the conditional notarization
step followed by the verification loop.  `notarizeOk` tells whether the
single `notarize` call succeeds for a given credential.  Returns the list
of credentials passed to `notarize` (in call order) and whether the
process exits zero. -/
def mainRun (m : List (String × String)) (approver : String)
    (notarizeOk : String → Bool) (ledger : String → LoadResult) :
    List String × Bool :=
  match lookupMap m approver with
  | some key =>
    if notarizeOk key then ([key], runExitsZero m ledger)
    else ([key], false)
  | none => ([], runExitsZero m ledger)

/-! ### Credential reconciliation (main.go:206-264) -/

/-- The fixed platform suffix appended to a bare username to form the
directory lookup key (`identitySuffix`, main.go:26). -/
def identitySuffix : String := "@github"

/-- The (id, key) pair returned by the directory REST API
(`APIKeyResponse`, main.go:234-237). -/
structure APIKeyResponse where
  id : String
  key : String
deriving DecidableEq, Repr

/-- The credential directory, as an oracle over the three REST endpoints:
lookup-by-identity (returning the page's item list), create, and rotate
(by credential ID).  An `Except.error` models any transport or
unexpected-status failure. -/
structure Directory where
  lookup : String → Except String (List APIKeyResponse)
  create : String → Except String APIKeyResponse
  rotate : String → Except String APIKeyResponse

/-- Trace of the directory calls made during reconciliation: the signer
IDs looked up, the signer IDs passed to create, and the credential IDs
passed to rotate, in call order. -/
structure CallTrace where
  lookups : List String
  creates : List String
  rotates : List String
deriving DecidableEq, Repr

/-- Outcome of `getAPIKey` (main.go:244-264): the sentinel
`errAPIKeyNotFound` when the returned item list is empty, the FIRST item
otherwise, or the lookup's own error. -/
inductive GetKeyResult where
  | notFound
  | got (k : APIKeyResponse)
  | failed (msg : String)
deriving DecidableEq, Repr

/-- `getAPIKey` (main.go:244-264). -/
def getAPIKey (d : Directory) (signerID : String) : GetKeyResult :=
  match d.lookup signerID with
  | Except.error e => GetKeyResult.failed e
  | Except.ok items =>
    match items with
    | [] => GetKeyResult.notFound
    | k :: _ => GetKeyResult.got k

/-- The body of the reconciliation loop for one non-empty trimmed
identity (main.go:218-229): derive the signer ID, look it up; on
not-found create under the signer ID, otherwise rotate the found
credential's ID.  Returns the trace of directory calls and the credential
to record (or the propagated error). -/
def reconcileOne (d : Directory) (requiredApprover : String) :
    CallTrace × Except String APIKeyResponse :=
  let signerID := requiredApprover ++ identitySuffix
  match getAPIKey d signerID with
  | GetKeyResult.notFound =>
    (⟨[signerID], [signerID], []⟩, d.create signerID)
  | GetKeyResult.got k =>
    (⟨[signerID], [], [k.id]⟩, d.rotate k.id)
  | GetKeyResult.failed e =>
    (⟨[signerID], [], []⟩, Except.error e)

/-- Go map insertion `m[k] = v` over the association-list model. -/
def mapInsert (m : List (String × String)) (k v : String) :
    List (String × String) :=
  if (m.find? (fun p => p.1 == k)).isSome then
    m.map (fun p => if p.1 == k then (k, v) else p)
  else
    m ++ [(k, v)]

/-- One step of Go `strings.TrimSpace`: drop leading whitespace. -/
def trimLeftL : List Char → List Char
  | [] => []
  | c :: cs => if c.isWhitespace then trimLeftL cs else c :: cs

/-- Go `strings.TrimSpace` over the character list of a string. -/
def trimL (l : List Char) : List Char :=
  (trimLeftL ((trimLeftL l).reverse)).reverse

/-- Go `strings.TrimSpace` (main.go:212). -/
def goTrim (s : String) : String := String.mk (trimL s.data)

/-- Go `strings.Split` for a one-character separator, over character
lists: `splitOnChar c l` is the list of maximal `c`-free segments of `l`
(always non-empty; `[[]]` for the empty string). -/
def splitOnChar (c : Char) : List Char → List (List Char)
  | [] => [[]]
  | x :: xs =>
    match splitOnChar c xs with
    | [] => [[]]
    | y :: ys => if x = c then [] :: y :: ys else (x :: y) :: ys

/-- Go `strings.Split(s, ",")` (main.go:211). -/
def goSplitComma (s : String) : List String :=
  (splitOnChar ',' s.data).map String.mk

/-- The loop of `getAndRotateOrCreateAPIKeys` (main.go:211-230) over the
already-comma-split approver list, threading the map accumulator `m`:
an entry that is empty after trimming is skipped with no directory call;
otherwise `reconcileOne` runs and on success its credential's key is
recorded under the original (unsuffixed, trimmed) identity; its error
aborts the whole reconciliation.  Returns the accumulated call trace and
the final map or the error. -/
def reconcileGo (d : Directory) (m : List (String × String)) :
    List String → CallTrace × Except String (List (String × String))
  | [] => (⟨[], [], []⟩, Except.ok m)
  | a :: rest =>
    let t := goTrim a
    if t = "" then reconcileGo d m rest
    else
      match reconcileOne d t with
      | (tr1, Except.error e) =>
        (tr1, Except.error ("error getting or creating / rotating API key for approver "
          ++ t ++ ": " ++ e))
      | (tr1, Except.ok k) =>
        let r := reconcileGo d (mapInsert m t k.key) rest
        (⟨tr1.lookups ++ r.1.lookups, tr1.creates ++ r.1.creates,
          tr1.rotates ++ r.1.rotates⟩, r.2)

/-- `getAndRotateOrCreateAPIKeys` (main.go:206-232). -/
def getAndRotateOrCreateAPIKeys (d : Directory) (requiredApprovers : String) :
    CallTrace × Except String (List (String × String)) :=
  reconcileGo d [] (goSplitComma requiredApprovers)

/-! ### Supplied-credentials parsing (nine-argument variant, lines 117-137) -/

/-- Go `strings.Join(l, ".")` over character lists. -/
def joinChar (c : Char) : List (List Char) → List Char
  | [] => []
  | [p] => p
  | p :: q :: ps => p ++ c :: joinChar c (q :: ps)

/-- Go `strings.TrimSuffix` over character lists. -/
def trimSuffixL (s suffix : List Char) : List Char :=
  if suffix.isSuffixOf s then s.take (s.length - suffix.length) else s

/-- `identitySuffix` as a character list. -/
def identitySuffixL : List Char := identitySuffix.data

/-- Identity decoded from one supplied credential string (line 127 of the
nine-argument variant): join all '.'-pieces but the last back with '.',
then strip the platform suffix. -/
def decodeIdentity (ak : List Char) : List Char :=
  trimSuffixL (joinChar '.' ((splitOnChar '.' ak).dropLast)) identitySuffixL

/-- The supplied-credentials loop (lines 120-135 of the nine-argument
variant) over the comma-split credential list, threading the map
accumulator: a credential with fewer than two '.'-pieces is fatal; a
decoded identity already present in the map is fatal; otherwise the full
credential string is recorded under the decoded identity. -/
def parseSuppliedLoop (m : List (List Char × List Char)) :
    List (List Char) → Except String (List (List Char × List Char))
  | [] => Except.ok m
  | ak :: rest =>
    if (splitOnChar '.' ak).length < 2 then
      Except.error "the specified API key is not supported: must be of the form identity.secret"
    else
      let signerID := decodeIdentity ak
      if (m.find? (fun p => p.1 == signerID)).isSome then
        Except.error "more than one API key has been specified for the same signer ID"
      else
        parseSuppliedLoop (m ++ [(signerID, ak)]) rest

/-- The whole supplied-credentials branch (lines 118-136): split the raw
argument on ',' and run the loop on an empty map.  This runs before any
network call of that `main`; an error aborts the process with exit 1. -/
def parseSupplied (s : List Char) : Except String (List (List Char × List Char)) :=
  parseSuppliedLoop [] (splitOnChar ',' s)

/-- Whether an `Except` value is a success. -/
def exceptOk {ε α : Type} : Except ε α → Bool
  | Except.ok _ => true
  | Except.error _ => false

/-! ### Sample oracles used by the witnesses -/

/-- A ledger on which every credential resolves to a Trusted record. -/
def ledgerAllTrusted : String → LoadResult :=
  fun _ => LoadResult.found ⟨Status.trusted, "commit", "signer", none⟩ true

/-- A ledger on which every credential resolves to an Untrusted record. -/
def ledgerAllUntrusted : String → LoadResult :=
  fun _ => LoadResult.found ⟨Status.untrusted, "commit", "signer", none⟩ true

/-- A directory with no stored credentials. -/
def dirEmpty : Directory where
  lookup := fun _ => Except.ok []
  create := fun s => Except.ok ⟨s ++ ":id", s ++ ":key"⟩
  rotate := fun i => Except.ok ⟨i, i ++ ":rotated"⟩

/-- A directory holding two credentials for every identity. -/
def dirTwoKeys : Directory where
  lookup := fun s => Except.ok [⟨s ++ ":id1", s ++ ":key1"⟩, ⟨s ++ ":id2", s ++ ":key2"⟩]
  create := fun s => Except.ok ⟨s ++ ":id", s ++ ":key"⟩
  rotate := fun i => Except.ok ⟨i, i ++ ":rotated"⟩

/-! ### Helper lemmas about the verification loop -/

theorem verifyLoop_no_fatal (ledger : String → LoadResult) :
    ∀ m : List (String × String), (∀ p ∈ m, fatalEntry ledger p = false) →
    verifyLoop ledger m =
      LoopResult.completed ((m.filter (entryTrusted ledger)).map Prod.fst)
        (m.map Prod.fst) := by
  intro m
  induction m with
  | nil => intro _; rfl
  | cons p rest ih =>
    intro h
    have hp : fatalEntry ledger p = false := h p (by simp)
    have hrest : ∀ q ∈ rest, fatalEntry ledger q = false :=
      fun q hq => h q (by simp [hq])
    show stepEntry ledger p (verifyLoop ledger rest) = _
    rw [ih hrest]
    cases hv : verify (ledger p.2) with
    | error e => simp [fatalEntry, hv] at hp
    | ok o =>
      cases o with
      | none =>
        have he : entryTrusted ledger p = false := by simp [entryTrusted, hv]
        simp [stepEntry, hv, skipEntry, List.filter_cons, he]
      | some a =>
        have he : entryTrusted ledger p = decide (a.status = Status.trusted) := by
          simp [entryTrusted, hv]
        by_cases hs : a.status = Status.trusted
        · simp [stepEntry, hv, List.filter_cons, he, hs]
        · simp [stepEntry, hv, List.filter_cons, he, hs]

theorem verifyLoop_completed_length_le (ledger : String → LoadResult) :
    ∀ (m : List (String × String)) (ns vs : List String),
    verifyLoop ledger m = LoopResult.completed ns vs → ns.length ≤ m.length := by
  intro m
  induction m with
  | nil =>
    intro ns vs h
    simp [verifyLoop] at h
    obtain ⟨h1, _⟩ := h
    subst h1
    simp
  | cons p rest ih =>
    intro ns vs h
    show ns.length ≤ rest.length + 1
    rw [show verifyLoop ledger (p :: rest) = stepEntry ledger p (verifyLoop ledger rest)
      from rfl] at h
    cases hv : verify (ledger p.2) with
    | error e => simp [stepEntry, hv] at h
    | ok o =>
      cases o with
      | none =>
        cases hr : verifyLoop ledger rest with
        | aborted vs2 => rw [hr] at h; simp [stepEntry, hv, skipEntry] at h
        | completed ns2 vs2 =>
          rw [hr] at h
          simp [stepEntry, hv, skipEntry] at h
          obtain ⟨h1, _⟩ := h
          subst h1
          have := ih ns2 vs2 hr
          omega
      | some a =>
        cases hr : verifyLoop ledger rest with
        | aborted vs2 => rw [hr] at h; simp [stepEntry, hv] at h
        | completed ns2 vs2 =>
          rw [hr] at h
          have hlen := ih ns2 vs2 hr
          by_cases hs : a.status = Status.trusted
          · simp [stepEntry, hv, hs] at h
            obtain ⟨h1, _⟩ := h
            subst h1
            simp
            omega
          · simp [stepEntry, hv, hs] at h
            obtain ⟨h1, _⟩ := h
            subst h1
            omega

theorem runExitsZero_eq_all (ledger : String → LoadResult) :
    ∀ m : List (String × String),
    runExitsZero m ledger = m.all (entryTrusted ledger) := by
  intro m
  induction m with
  | nil => rfl
  | cons p rest ih =>
    rw [show runExitsZero (p :: rest) ledger =
      (match stepEntry ledger p (verifyLoop ledger rest) with
        | LoopResult.aborted _ => false
        | LoopResult.completed ns _ => decide (ns.length = (p :: rest).length))
      from rfl]
    cases hv : verify (ledger p.2) with
    | error e =>
      have he : entryTrusted ledger p = false := by simp [entryTrusted, hv]
      simp [stepEntry, hv, List.all_cons, he]
    | ok o =>
      cases o with
      | none =>
        have he : entryTrusted ledger p = false := by simp [entryTrusted, hv]
        cases hr : verifyLoop ledger rest with
        | aborted vs => simp [stepEntry, hv, skipEntry, List.all_cons, he]
        | completed ns vs =>
          have hlen := verifyLoop_completed_length_le ledger rest ns vs hr
          simp [stepEntry, hv, skipEntry, List.all_cons, he]
          omega
      | some a =>
        have he : entryTrusted ledger p = decide (a.status = Status.trusted) := by
          simp [entryTrusted, hv]
        cases hr : verifyLoop ledger rest with
        | aborted vs =>
          have hrt : rest.all (entryTrusted ledger) = false := by
            rw [← ih]
            simp [runExitsZero, hr]
          simp [stepEntry, hv, List.all_cons, hrt]
        | completed ns vs =>
          have hrt : rest.all (entryTrusted ledger) = decide (ns.length = rest.length) := by
            rw [← ih]
            simp [runExitsZero, hr]
          have hlen := verifyLoop_completed_length_le ledger rest ns vs hr
          by_cases hs : a.status = Status.trusted
          · simp [stepEntry, hv, hs, List.all_cons, he, hrt]
          · simp [stepEntry, hv, hs, List.all_cons, he, hrt]
            omega

theorem perm_all_eq {α : Type} (l1 l2 : List α) (p : α → Bool)
    (h : l1.Perm l2) : l1.all p = l2.all p := by
  cases hb : l2.all p with
  | true =>
    rw [List.all_eq_true] at hb ⊢
    exact fun x hx => hb x (h.mem_iff.mp hx)
  | false =>
    rw [List.all_eq_false] at hb ⊢
    obtain ⟨x, hx, hpx⟩ := hb
    exact ⟨x, h.mem_iff.mpr hx, hpx⟩

/-! ### Claim C1 -/

/-- C1: with every verification call succeeding, the run exits zero
exactly when every identity in the reconciled credential map has a
verification record with TrustStatus = Trusted; an absent record or any
other status makes the run exit non-zero (no partial success or quorum). -/
theorem aggregate_success_iff_all_trusted
    (m : List (String × String)) (ledger : String → LoadResult)
    (_hok : ∀ p ∈ m, fatalEntry ledger p = false) :
    runExitsZero m ledger = true ↔ ∀ p ∈ m, entryTrusted ledger p = true := by
  rw [runExitsZero_eq_all]
  exact List.all_eq_true

-- Witness for C1 at a concrete one-entry credential map.
theorem aggregate_success_iff_all_trusted_witness :
    (∀ p ∈ [("alice", "k1")], fatalEntry ledgerAllTrusted p = false) ∧
    (runExitsZero [("alice", "k1")] ledgerAllTrusted = true ↔
      ∀ p ∈ [("alice", "k1")], entryTrusted ledgerAllTrusted p = true) :=
  ⟨by decide, aggregate_success_iff_all_trusted [("alice", "k1")] ledgerAllTrusted (by decide)⟩

/-! ### Claim C4 -/

/-- C4: the aggregate pass/fail decision does not depend on the iteration
order over the credential map: any two permutations of the entries yield
the same exit decision; and (the map having distinct keys, with every
verification call succeeding) verification visits each identity of the
map exactly once. -/
theorem verification_order_independent
    (l1 l2 : List (String × String)) (ledger : String → LoadResult)
    (hperm : l1.Perm l2) :
    runExitsZero l1 ledger = runExitsZero l2 ledger ∧
    (((l1.map Prod.fst).Nodup ∧ ∀ p ∈ l1, fatalEntry ledger p = false) →
      ∀ id ∈ l1.map Prod.fst, (loopVisited (verifyLoop ledger l1)).count id = 1) := by
  constructor
  · rw [runExitsZero_eq_all, runExitsZero_eq_all]
    exact perm_all_eq l1 l2 (entryTrusted ledger) hperm
  · rintro ⟨hnd, hnf⟩ id hid
    rw [verifyLoop_no_fatal ledger l1 hnf]
    show (l1.map Prod.fst).count id = 1
    exact List.count_eq_one_of_mem hnd hid

-- Witness for C4: a two-entry map and its reversal.
theorem verification_order_independent_witness :
    ([("alice", "k1"), ("bob", "k2")] : List (String × String)).Perm
      [("bob", "k2"), ("alice", "k1")] ∧
    (runExitsZero [("alice", "k1"), ("bob", "k2")] ledgerAllTrusted =
      runExitsZero [("bob", "k2"), ("alice", "k1")] ledgerAllTrusted ∧
    ((([("alice", "k1"), ("bob", "k2")] : List (String × String)).map Prod.fst).Nodup ∧
        (∀ p ∈ [("alice", "k1"), ("bob", "k2")], fatalEntry ledgerAllTrusted p = false) →
      ∀ id ∈ ([("alice", "k1"), ("bob", "k2")] : List (String × String)).map Prod.fst,
        (loopVisited (verifyLoop ledgerAllTrusted [("alice", "k1"), ("bob", "k2")])).count id = 1)) :=
  ⟨List.Perm.swap ("bob", "k2") ("alice", "k1") [],
    verification_order_independent [("alice", "k1"), ("bob", "k2")]
      [("bob", "k2"), ("alice", "k1")] ledgerAllTrusted
      (List.Perm.swap ("bob", "k2") ("alice", "k1") [])⟩

/-! ### Claim C2 -/

/-- C2: for a non-empty credential map and acting approver `approver`: if
`approver` is a key of the map, `notarize` is invoked exactly once, with
that approver's credential and no other; if `approver` is not a key,
`notarize` is never invoked and the run proceeds to the verification
phase without error. -/
theorem notarize_once_iff_required
    (m : List (String × String)) (_hm : m ≠ []) (approver : String)
    (notarizeOk : String → Bool) (ledger : String → LoadResult) :
    (∀ key, lookupMap m approver = some key →
      (mainRun m approver notarizeOk ledger).1 = [key]) ∧
    (lookupMap m approver = none →
      mainRun m approver notarizeOk ledger = ([], runExitsZero m ledger)) := by
  constructor
  · intro key hk
    cases hnk : notarizeOk key with
    | true => simp [mainRun, hk, hnk]
    | false => simp [mainRun, hk, hnk]
  · intro hk
    simp [mainRun, hk]

-- Witness for C2: acting approver present in a one-entry map.
theorem notarize_once_iff_required_witness :
    ([("alice", "k1")] : List (String × String)) ≠ [] ∧
    ((∀ key, lookupMap [("alice", "k1")] "alice" = some key →
      (mainRun [("alice", "k1")] "alice" (fun _ => true) ledgerAllTrusted).1 = [key]) ∧
    (lookupMap [("alice", "k1")] "alice" = none →
      mainRun [("alice", "k1")] "alice" (fun _ => true) ledgerAllTrusted =
        ([], runExitsZero [("alice", "k1")] ledgerAllTrusted))) :=
  ⟨by decide,
    notarize_once_iff_required [("alice", "k1")] (by decide) "alice"
      (fun _ => true) ledgerAllTrusted⟩

/-! ### Claim C5 -/

/-- C5: a verification result whose record carries a non-nil, non-zero
revocation timestamp is recorded with status ApikeyRevoked, whatever
status the ledger reported (including Trusted), and such an identity
never counts toward the unanimous-Trusted success condition. -/
theorem revoked_forces_apikeyRevoked
    (a : LcArtifact) (t : Nat) (hrev : a.revoked = some t) (ht : t ≠ 0) :
    verify (LoadResult.found a true) =
      Except.ok (some { a with status := Status.apikeyRevoked }) ∧
    ∀ (ledger : String → LoadResult) (id key : String),
      ledger key = LoadResult.found a true →
      entryTrusted ledger (id, key) = false := by
  have hset : revokedSet a = true := by simp [revokedSet, hrev, ht]
  constructor
  · simp [verify, hset]
  · intro ledger id key hl
    simp [entryTrusted, hl, verify, hset]

-- Witness for C5: a record the ledger reports as Trusted but revoked at 5.
theorem revoked_forces_apikeyRevoked_witness :
    (⟨Status.trusted, "commit", "signer", some 5⟩ : LcArtifact).revoked = some 5 ∧
    (verify (LoadResult.found ⟨Status.trusted, "commit", "signer", some 5⟩ true) =
      Except.ok (some ⟨Status.apikeyRevoked, "commit", "signer", some 5⟩) ∧
    ∀ (ledger : String → LoadResult) (id key : String),
      ledger key = LoadResult.found ⟨Status.trusted, "commit", "signer", some 5⟩ true →
      entryTrusted ledger (id, key) = false) :=
  ⟨rfl, revoked_forces_apikeyRevoked ⟨Status.trusted, "commit", "signer", some 5⟩ 5
    rfl (by decide)⟩

/-! ### Claim C6 -/

/-- C6: a verification call returning a record with verified flag `false`
makes `verify` return an error (not a status); the run aborts fatally at
that entry: the identities after it in iteration order are never visited
and the process exits non-zero. -/
theorem unverified_record_aborts_run
    (ledger : String → LoadResult) (m1 m2 : List (String × String))
    (id key : String) (a : LcArtifact)
    (hk : ledger key = LoadResult.found a false)
    (h1 : ∀ p ∈ m1, fatalEntry ledger p = false) :
    (∃ e, verify (ledger key) = Except.error e) ∧
    verifyLoop ledger (m1 ++ (id, key) :: m2) =
      LoopResult.aborted (m1.map Prod.fst ++ [id]) ∧
    runExitsZero (m1 ++ (id, key) :: m2) ledger = false := by
  have hverr : verify (ledger key) =
      Except.error "ledger might be compromised: CNIL verification status is false" := by
    simp [verify, hk]
  have hab : ∀ l : List (String × String),
      (∀ p ∈ l, fatalEntry ledger p = false) →
      verifyLoop ledger (l ++ (id, key) :: m2) =
        LoopResult.aborted (l.map Prod.fst ++ [id]) := by
    intro l
    induction l with
    | nil =>
      intro _
      show stepEntry ledger (id, key) (verifyLoop ledger m2) = _
      simp [stepEntry, hverr]
    | cons p rest ih =>
      intro h
      have hp : fatalEntry ledger p = false := h p (by simp)
      have hrest : ∀ q ∈ rest, fatalEntry ledger q = false :=
        fun q hq => h q (by simp [hq])
      show stepEntry ledger p (verifyLoop ledger (rest ++ (id, key) :: m2)) = _
      rw [ih hrest]
      cases hv : verify (ledger p.2) with
      | error e => simp [fatalEntry, hv] at hp
      | ok o =>
        cases o with
        | none => simp [stepEntry, hv, skipEntry]
        | some b => simp [stepEntry, hv]
  refine ⟨⟨_, hverr⟩, hab m1 h1, ?_⟩
  simp [runExitsZero, hab m1 h1]

-- Witness for C6: bob's record is unverified; carol is after bob and is
-- never visited.
theorem unverified_record_aborts_run_witness :
    (fun k => if k = "kb" then LoadResult.found ⟨Status.trusted, "c", "s", none⟩ false
      else LoadResult.notFound) "kb" =
        LoadResult.found ⟨Status.trusted, "c", "s", none⟩ false ∧
    (∀ p ∈ [("alice", "ka")],
      fatalEntry (fun k => if k = "kb" then LoadResult.found ⟨Status.trusted, "c", "s", none⟩ false
        else LoadResult.notFound) p = false) ∧
    ((∃ e, verify ((fun k => if k = "kb" then LoadResult.found ⟨Status.trusted, "c", "s", none⟩ false
        else LoadResult.notFound) "kb") = Except.error e) ∧
    verifyLoop (fun k => if k = "kb" then LoadResult.found ⟨Status.trusted, "c", "s", none⟩ false
        else LoadResult.notFound)
        ([("alice", "ka")] ++ ("bob", "kb") :: [("carol", "kc")]) =
      LoopResult.aborted (([("alice", "ka")] : List (String × String)).map Prod.fst ++ ["bob"]) ∧
    runExitsZero ([("alice", "ka")] ++ ("bob", "kb") :: [("carol", "kc")])
      (fun k => if k = "kb" then LoadResult.found ⟨Status.trusted, "c", "s", none⟩ false
        else LoadResult.notFound) = false) :=
  ⟨by decide, by decide,
    unverified_record_aborts_run
      (fun k => if k = "kb" then LoadResult.found ⟨Status.trusted, "c", "s", none⟩ false
        else LoadResult.notFound)
      [("alice", "ka")] [("carol", "kc")] "bob" "kb"
      ⟨Status.trusted, "c", "s", none⟩ (by decide) (by decide)⟩

/-! ### Claim C7 -/

/-- C7: a verification lookup returning the distinguished not-found
result makes `verify` return the non-error absent outcome `ok none`; the
loop records the identity as visited but not notarized and continues with
the remaining identities instead of aborting. -/
theorem notFound_recorded_absent_continues
    (ledger : String → LoadResult) (id key : String)
    (m2 : List (String × String))
    (hk : ledger key = LoadResult.notFound) :
    verify (ledger key) = Except.ok none ∧
    verifyLoop ledger ((id, key) :: m2) = skipEntry id (verifyLoop ledger m2) := by
  constructor
  · simp [verify, hk]
  · show stepEntry ledger (id, key) (verifyLoop ledger m2) = _
    simp [stepEntry, verify, hk]

-- Witness for C7: alice absent, bob still verified afterwards.
theorem notFound_recorded_absent_continues_witness :
    (fun k => if k = "ka" then LoadResult.notFound
      else LoadResult.found ⟨Status.trusted, "c", "s", none⟩ true) "ka" =
        LoadResult.notFound ∧
    (verify ((fun k => if k = "ka" then LoadResult.notFound
      else LoadResult.found ⟨Status.trusted, "c", "s", none⟩ true) "ka") = Except.ok none ∧
    verifyLoop (fun k => if k = "ka" then LoadResult.notFound
        else LoadResult.found ⟨Status.trusted, "c", "s", none⟩ true)
        (("alice", "ka") :: [("bob", "kb")]) =
      skipEntry "alice" (verifyLoop (fun k => if k = "ka" then LoadResult.notFound
        else LoadResult.found ⟨Status.trusted, "c", "s", none⟩ true) [("bob", "kb")])) :=
  ⟨by decide,
    notFound_recorded_absent_continues
      (fun k => if k = "ka" then LoadResult.notFound
        else LoadResult.found ⟨Status.trusted, "c", "s", none⟩ true)
      "alice" "ka" [("bob", "kb")] (by decide)⟩

/-! ### Claim C3 -/

/-- C3: in the reconciliation loop body for a non-empty trimmed identity,
a not-found directory lookup (empty item list) leads to exactly one
create call and zero rotate calls; a lookup returning an existing
credential leads to exactly one rotate call and zero create calls, and
the credential recorded is the rotate call's result — an existing
credential is never recorded without being rotated first. -/
theorem reconcile_create_xor_rotate
    (d : Directory) (t : String) (_hne : t ≠ "") :
    (d.lookup (t ++ identitySuffix) = Except.ok [] →
      reconcileOne d t =
        (⟨[t ++ identitySuffix], [t ++ identitySuffix], []⟩,
          d.create (t ++ identitySuffix))) ∧
    (∀ (k : APIKeyResponse) (ks : List APIKeyResponse),
      d.lookup (t ++ identitySuffix) = Except.ok (k :: ks) →
      reconcileOne d t = (⟨[t ++ identitySuffix], [], [k.id]⟩, d.rotate k.id)) := by
  constructor
  · intro h
    simp [reconcileOne, getAPIKey, h]
  · intro k ks h
    simp [reconcileOne, getAPIKey, h]

-- Witness for C3 on the empty directory.
theorem reconcile_create_xor_rotate_witness :
    ("alice" : String) ≠ "" ∧
    ((dirEmpty.lookup ("alice" ++ identitySuffix) = Except.ok [] →
      reconcileOne dirEmpty "alice" =
        (⟨["alice" ++ identitySuffix], ["alice" ++ identitySuffix], []⟩,
          dirEmpty.create ("alice" ++ identitySuffix))) ∧
    (∀ (k : APIKeyResponse) (ks : List APIKeyResponse),
      dirEmpty.lookup ("alice" ++ identitySuffix) = Except.ok (k :: ks) →
      reconcileOne dirEmpty "alice" =
        (⟨["alice" ++ identitySuffix], [], [k.id]⟩, dirEmpty.rotate k.id))) :=
  ⟨by decide, reconcile_create_xor_rotate dirEmpty "alice" (by decide)⟩

/-! ### Claim C10 -/

/-- C10: when the directory lookup returns more than one credential for a
signer identity, only the first item is used: exactly its ID is rotated
and the recorded credential is the result of rotating it; every other
returned credential is neither rotated nor recorded. -/
theorem multi_credential_only_first_used
    (d : Directory) (t : String) (k1 k2 : APIKeyResponse)
    (ks : List APIKeyResponse)
    (hl : d.lookup (t ++ identitySuffix) = Except.ok (k1 :: k2 :: ks)) :
    reconcileOne d t = (⟨[t ++ identitySuffix], [], [k1.id]⟩, d.rotate k1.id) ∧
    (∀ k ∈ k2 :: ks, k.id ≠ k1.id → k.id ∉ (reconcileOne d t).1.rotates) := by
  have h1 : reconcileOne d t = (⟨[t ++ identitySuffix], [], [k1.id]⟩, d.rotate k1.id) := by
    simp [reconcileOne, getAPIKey, hl]
  refine ⟨h1, ?_⟩
  intro k _ hk
  rw [h1]
  simp [hk]

-- Witness for C10 on the two-credential directory.
theorem multi_credential_only_first_used_witness :
    dirTwoKeys.lookup ("alice" ++ identitySuffix) =
      Except.ok [⟨"alice@github:id1", "alice@github:key1"⟩,
        ⟨"alice@github:id2", "alice@github:key2"⟩] ∧
    (reconcileOne dirTwoKeys "alice" =
      (⟨["alice" ++ identitySuffix], [], [APIKeyResponse.id ⟨"alice@github:id1", "alice@github:key1"⟩]⟩,
        dirTwoKeys.rotate (APIKeyResponse.id ⟨"alice@github:id1", "alice@github:key1"⟩)) ∧
    (∀ k ∈ [(⟨"alice@github:id2", "alice@github:key2"⟩ : APIKeyResponse)],
      k.id ≠ APIKeyResponse.id ⟨"alice@github:id1", "alice@github:key1"⟩ →
      k.id ∉ (reconcileOne dirTwoKeys "alice").1.rotates)) :=
  ⟨rfl,
    multi_credential_only_first_used dirTwoKeys "alice"
      ⟨"alice@github:id1", "alice@github:key1"⟩
      ⟨"alice@github:id2", "alice@github:key2"⟩ [] rfl⟩

/-! ### Claim C9 -/

/-- C9: when every comma-separated entry of the required-approvers
argument is empty after trimming, reconciliation returns an empty
credential map with no directory call at all; notarization is then
skipped for every acting approver, no verification call is made, and the
run exits zero — the unanimous-Trusted condition is vacuously satisfied
over the empty set. -/
theorem empty_approvers_vacuous_success
    (d : Directory) (s : String)
    (h : ∀ a ∈ goSplitComma s, goTrim a = "")
    (approver : String) (notarizeOk : String → Bool)
    (ledger : String → LoadResult) :
    getAndRotateOrCreateAPIKeys d s = (⟨[], [], []⟩, Except.ok []) ∧
    mainRun [] approver notarizeOk ledger = ([], true) ∧
    loopVisited (verifyLoop ledger ([] : List (String × String))) = [] := by
  have hrec : ∀ l : List String, (∀ a ∈ l, goTrim a = "") →
      reconcileGo d [] l = (⟨[], [], []⟩, Except.ok []) := by
    intro l
    induction l with
    | nil => intro _; rfl
    | cons a rest ih =>
      intro h2
      have ha : goTrim a = "" := h2 a (by simp)
      have hr : ∀ b ∈ rest, goTrim b = "" := fun b hb => h2 b (by simp [hb])
      simp only [reconcileGo, ha, if_pos]
      exact ih hr
  exact ⟨hrec (goSplitComma s) h, rfl, rfl⟩

-- Witness for C9: the required-approvers argument is a bare comma.
theorem empty_approvers_vacuous_success_witness :
    (∀ a ∈ goSplitComma ",", goTrim a = "") ∧
    (getAndRotateOrCreateAPIKeys dirTwoKeys "," = (⟨[], [], []⟩, Except.ok []) ∧
    mainRun [] "alice" (fun _ => true) ledgerAllUntrusted = ([], true) ∧
    loopVisited (verifyLoop ledgerAllUntrusted ([] : List (String × String))) = []) :=
  ⟨by decide,
    empty_approvers_vacuous_success dirTwoKeys "," (by decide) "alice"
      (fun _ => true) ledgerAllUntrusted⟩

/-! ### Helper lemmas for the supplied-credentials parser -/

theorem splitOnChar_ne_nil (c : Char) : ∀ l : List Char, splitOnChar c l ≠ [] := by
  intro l
  induction l with
  | nil => simp [splitOnChar]
  | cons x xs ih =>
    cases hr : splitOnChar c xs with
    | nil => exact absurd hr ih
    | cons y ys =>
      by_cases hx : x = c
      · simp [splitOnChar, hr, hx]
      · simp [splitOnChar, hr, hx]

theorem splitOnChar_append (c : Char) :
    ∀ a b : List Char,
    splitOnChar c (a ++ c :: b) = splitOnChar c a ++ splitOnChar c b := by
  intro a b
  induction a with
  | nil =>
    cases hr : splitOnChar c b with
    | nil => exact absurd hr (splitOnChar_ne_nil c b)
    | cons y ys => simp [splitOnChar, hr]
  | cons x a' ih =>
    cases hr' : splitOnChar c a' with
    | nil => exact absurd hr' (splitOnChar_ne_nil c a')
    | cons z zs =>
      by_cases hx : x = c
      · simp [splitOnChar, ih, hr', hx]
      · simp [splitOnChar, ih, hr', hx]

theorem splitOnChar_of_forall_ne (c : Char) :
    ∀ l : List Char, (∀ x ∈ l, x ≠ c) → splitOnChar c l = [l] := by
  intro l
  induction l with
  | nil => intro _; rfl
  | cons x xs ih =>
    intro h
    have hx : x ≠ c := h x (by simp)
    have hxs : ∀ y ∈ xs, y ≠ c := fun y hy => h y (by simp [hy])
    simp [splitOnChar, ih hxs, hx]

theorem joinChar_cons_cons (c x : Char) (y : List Char) (ys : List (List Char)) :
    joinChar c ((x :: y) :: ys) = x :: joinChar c (y :: ys) := by
  cases ys with
  | nil => rfl
  | cons z zs => rfl

theorem joinChar_splitOnChar (c : Char) :
    ∀ l : List Char, joinChar c (splitOnChar c l) = l := by
  intro l
  induction l with
  | nil => rfl
  | cons x xs ih =>
    cases hr : splitOnChar c xs with
    | nil => exact absurd hr (splitOnChar_ne_nil c xs)
    | cons y ys =>
      have ih' : joinChar c (y :: ys) = xs := by rw [← hr]; exact ih
      by_cases hx : x = c
      · subst hx
        rw [show splitOnChar x (x :: xs) = [] :: y :: ys from by simp [splitOnChar, hr]]
        simp [joinChar, ih']
      · rw [show splitOnChar c (x :: xs) = (x :: y) :: ys from by simp [splitOnChar, hr, hx]]
        rw [joinChar_cons_cons, ih']

theorem parseSuppliedLoop_ok_nodup :
    ∀ (aks : List (List Char)) (m res : List (List Char × List Char)),
    parseSuppliedLoop m aks = Except.ok res →
    (aks.map decodeIdentity).Nodup ∧
      ∀ i ∈ aks.map decodeIdentity, ∀ p ∈ m, p.1 ≠ i := by
  intro aks
  induction aks with
  | nil =>
    intro m res _
    refine ⟨by simp, ?_⟩
    simp
  | cons ak rest ih =>
    intro m res h
    by_cases h2 : (splitOnChar '.' ak).length < 2
    · simp [parseSuppliedLoop, h2] at h
    · cases h3 : (m.find? (fun p => p.1 == decodeIdentity ak)).isSome with
      | true => simp [parseSuppliedLoop, h2, h3] at h
      | false =>
        have h4 : parseSuppliedLoop (m ++ [(decodeIdentity ak, ak)]) rest =
            Except.ok res := by
          simpa [parseSuppliedLoop, h2, h3] using h
        obtain ⟨hnd, hdisj⟩ := ih (m ++ [(decodeIdentity ak, ak)]) res h4
        have hfind : m.find? (fun q => q.1 == decodeIdentity ak) = none := by
          cases hf : m.find? (fun q => q.1 == decodeIdentity ak) with
          | none => rfl
          | some q => rw [hf] at h3; simp at h3
        constructor
        · simp only [List.map_cons]
          refine List.nodup_cons.mpr ⟨?_, hnd⟩
          intro hmem
          exact hdisj (decodeIdentity ak) hmem (decodeIdentity ak, ak) (by simp) rfl
        · intro i hi p hp
          simp only [List.map_cons, List.mem_cons] at hi
          cases hi with
          | inl hieq =>
            subst hieq
            have hne := List.find?_eq_none.mp hfind p hp
            simpa using hne
          | inr hi' =>
            exact hdisj i hi' p (by simp [hp])

theorem parseSuppliedLoop_ok_wf :
    ∀ (aks : List (List Char)) (m res : List (List Char × List Char)),
    parseSuppliedLoop m aks = Except.ok res →
    ∀ ak ∈ aks, 2 ≤ (splitOnChar '.' ak).length := by
  intro aks
  induction aks with
  | nil => intro m res _; simp
  | cons ak rest ih =>
    intro m res h
    by_cases h2 : (splitOnChar '.' ak).length < 2
    · simp [parseSuppliedLoop, h2] at h
    · cases h3 : (m.find? (fun p => p.1 == decodeIdentity ak)).isSome with
      | true => simp [parseSuppliedLoop, h2, h3] at h
      | false =>
        have h4 : parseSuppliedLoop (m ++ [(decodeIdentity ak, ak)]) rest =
            Except.ok res := by
          simpa [parseSuppliedLoop, h2, h3] using h
        intro b hb
        cases hb with
        | head => omega
        | tail _ hb' => exact ih (m ++ [(decodeIdentity ak, ak)]) res h4 b hb'

/-! ### Claim C8 -/

/-- C8: a supplied credential of the form qualifiedIdentity.secret is
split at its last '.' and the fixed platform suffix is stripped to
recover the identity; when two supplied credentials decode to the same
identity the run terminates fatally (the parse never succeeds, so it
exits non-zero before any network call of that `main`), and a credential
with fewer than two '.'-pieces likewise terminates the run fatally. -/
theorem supplied_credentials_parsing :
    (∀ pre post : List Char, '.' ∉ post →
      decodeIdentity (pre ++ '.' :: post) = trimSuffixL pre identitySuffixL) ∧
    (∀ (s : List Char) (u v w : List (List Char)) (ak1 ak2 : List Char),
      splitOnChar ',' s = u ++ ak1 :: v ++ ak2 :: w →
      decodeIdentity ak1 = decodeIdentity ak2 →
      exceptOk (parseSupplied s) = false) ∧
    (∀ (s ak : List Char), ak ∈ splitOnChar ',' s →
      (splitOnChar '.' ak).length < 2 →
      exceptOk (parseSupplied s) = false) := by
  refine ⟨?_, ?_, ?_⟩
  · intro pre post hpost
    have h1 : splitOnChar '.' (pre ++ '.' :: post) =
        splitOnChar '.' pre ++ [post] := by
      rw [splitOnChar_append]
      rw [splitOnChar_of_forall_ne '.' post (fun x hx hc => hpost (hc ▸ hx))]
    unfold decodeIdentity
    rw [h1, List.dropLast_concat, joinChar_splitOnChar]
  · intro s u v w ak1 ak2 hsplit hdec
    cases hres : parseSupplied s with
    | error e => rfl
    | ok res =>
      exfalso
      have hnd := (parseSuppliedLoop_ok_nodup (splitOnChar ',' s) [] res
        (by simpa [parseSupplied] using hres)).1
      rw [hsplit] at hnd
      have hsl : (ak1 :: (v ++ ak2 :: w)).Sublist (u ++ ak1 :: (v ++ ak2 :: w)) :=
        List.sublist_append_right u _
      have hsub : (List.map decodeIdentity (ak1 :: (v ++ ak2 :: w))).Nodup :=
        (hsl.map decodeIdentity).nodup (by simpa using hnd)
      rw [List.map_cons] at hsub
      have hnotin := (List.nodup_cons.mp hsub).1
      apply hnotin
      rw [hdec]
      exact List.mem_map_of_mem decodeIdentity (by simp)
  · intro s ak hak hlt
    cases hres : parseSupplied s with
    | error e => rfl
    | ok res =>
      exfalso
      have := parseSuppliedLoop_ok_wf (splitOnChar ',' s) [] res
        (by simpa [parseSupplied] using hres) ak hak
      omega

-- Witness for C8: the decode shape on a concrete credential, and the
-- duplicate-identity and malformed-credential scenarios.
theorem supplied_credentials_parsing_witness :
    ('.' ∉ ("XYZ".data : List Char)) ∧
    decodeIdentity ("alice@github".data ++ '.' :: "XYZ".data) =
      trimSuffixL "alice@github".data identitySuffixL ∧
    splitOnChar ',' ("alice@github.XYZ,alice@github.ABC".data) =
      [] ++ "alice@github.XYZ".data :: [] ++ "alice@github.ABC".data :: [] ∧
    decodeIdentity "alice@github.XYZ".data = decodeIdentity "alice@github.ABC".data ∧
    exceptOk (parseSupplied "alice@github.XYZ,alice@github.ABC".data) = false ∧
    exceptOk (parseSupplied "nodot".data) = false :=
  ⟨by decide,
    supplied_credentials_parsing.1 ("alice@github".data) ("XYZ".data) (by decide),
    by decide,
    by decide,
    supplied_credentials_parsing.2.1 ("alice@github.XYZ,alice@github.ABC".data)
      [] [] [] ("alice@github.XYZ".data) ("alice@github.ABC".data)
      (by decide) (by decide),
    supplied_credentials_parsing.2.2 ("nodot".data) ("nodot".data)
      (by decide) (by decide)⟩

end PRAction
